import Mathlib

/-!
Shallow embedding of the Blood Test Report Analyzer
(`main.py`, `database.py`, `worker_tasks.py`, `agents.py`).

Bytes are modelled as `List (Fin 256)`; Python strings as `String`
(the inputs relevant here are ASCII, so `Char.toLower` matches
`str.lower`).  Database rows live in a `List AnalysisResult` in
insertion order; the Celery queue is a list of enqueued jobs.
-/

namespace BloodAnalyzer

abbrev Byte := Fin 256
abbrev Bytes := List Byte

/-! ### Python string primitives used by the source -/

/-- `needle` is a prefix of `hay` (`str.startswith`). -/
def strStartsWith : List Char → List Char → Bool
  | _, [] => true
  | [], _ :: _ => false
  | a :: as, b :: bs => a == b && strStartsWith as bs

/-- Python `needle in hay` substring test. -/
def strContains (hay needle : List Char) : Bool :=
  match hay with
  | [] => needle.isEmpty
  | _ :: t => strStartsWith hay needle || strContains t needle

/-- Python `hay.endswith(suffix)`. -/
def strEndsWith (hay suffix : String) : Bool :=
  strStartsWith hay.toList.reverse suffix.toList.reverse

/-- Python `str.lower` (ASCII range, which covers every string the code compares). -/
def pyLower (s : String) : String := ⟨s.toList.map Char.toLower⟩

/-- The whitespace set of Python `str.strip`. -/
def isPySpace (c : Char) : Bool :=
  c == ' ' || c == '\t' || c == '\n' || c == '\r' ||
  c == Char.ofNat 11 || c == Char.ofNat 12

/-- Python `s.strip()`. -/
def pyStrip (s : String) : String :=
  ⟨((s.toList.dropWhile isPySpace).reverse.dropWhile isPySpace).reverse⟩

/-- Python truthiness test `not s.strip()`: the text has no non-whitespace character. -/
def stripIsEmpty (s : String) : Bool := s.toList.all isPySpace

/-! ### Crypto codec

Modelled from the spec: `util/crypto.py` is not under `src/`; §4.1 describes a
symmetric cipher over raw bytes with a text-safe output encoding ("e.g., base64
over ciphertext+nonce") whose `decrypt` fails with `DecryptionError` on
malformed input.  We model it as a fixed-key XOR keystream cipher whose
ciphertext is hex-encoded; `decrypt_file` rejects any string that is not a
well-formed encoding. -/

inductive DecryptionError where
  | malformed : DecryptionError
  deriving DecidableEq, Repr

def cryptoKey : List Nat := [0x42, 0x9a, 0x17, 0xe3, 0x5c]

def keyAt (i : Nat) : Nat := cryptoKey.getD (i % cryptoKey.length) 0

theorem keyAt_lt (i : Nat) : keyAt i < 256 := by
  unfold keyAt
  have hlen : cryptoKey.length = 5 := rfl
  rw [hlen]
  have h : i % 5 < 5 := Nat.mod_lt _ (by decide)
  generalize i % 5 = j at h
  interval_cases j <;> decide

def bxor (b : Byte) (k : Nat) (hk : k < 256) : Byte :=
  ⟨Nat.xor b.val k, Nat.xor_lt_two_pow (n := 8) b.isLt hk⟩

/-- XOR keystream starting at position `i`. -/
def xorKS (i : Nat) : Bytes → Bytes
  | [] => []
  | b :: rest => bxor b (keyAt i) (keyAt_lt i) :: xorKS (i + 1) rest

def nibbleToChar (n : Nat) : Char :=
  if n < 10 then Char.ofNat (48 + n) else Char.ofNat (87 + n)

def charToNibble (c : Char) : Option (Fin 16) :=
  if h : 48 ≤ c.toNat ∧ c.toNat ≤ 57 then some ⟨c.toNat - 48, by omega⟩
  else if h2 : 97 ≤ c.toNat ∧ c.toNat ≤ 102 then some ⟨c.toNat - 87, by omega⟩
  else none

def hexEncodeL : Bytes → List Char
  | [] => []
  | b :: rest => nibbleToChar (b.val / 16) :: nibbleToChar (b.val % 16) :: hexEncodeL rest

def hexDecodeL : List Char → Option Bytes
  | [] => some []
  | [_] => none
  | c1 :: c2 :: rest =>
    match charToNibble c1, charToNibble c2, hexDecodeL rest with
    | some h, some l, some bs => some (⟨h.val * 16 + l.val, by omega⟩ :: bs)
    | _, _, _ => none

/-- Modelled from the spec: `encrypt(bytes) -> encodedString` (§4.1). -/
def encrypt_file (x : Bytes) : String := ⟨hexEncodeL (xorKS 0 x)⟩

/-- Modelled from the spec: `decrypt(encodedString) -> bytes`, failing with
`DecryptionError` on malformed input (§4.1). -/
def decrypt_file (s : String) : Except DecryptionError Bytes :=
  match hexDecodeL s.toList with
  | some bs => .ok (xorKS 0 bs)
  | none => .error .malformed

/-! ### `agents.py`: the `verify_report` tool -/

def keywords : List String :=
  ["Reference Range", "Result", "Units", "Lab", "Hemoglobin", "Glucose", "Patient"]

/-- `word.lower() in blood_text.lower()` for one keyword. -/
def keywordHit (blood_text word : String) : Bool :=
  strContains (pyLower blood_text).toList (pyLower word).toList

/-- `hits = sum(1 for word in keywords if word.lower() in blood_text.lower())`. -/
def hits (blood_text : String) : Nat :=
  (keywords.filter (fun word => keywordHit blood_text word)).length

def validReportMsg : String :=
  "✅ Document appears to be a valid medical report with standard blood panel structure."

def invalidReportMsg : String :=
  "⚠️ This may not be a typical blood report. Please ensure the uploaded file is a valid diagnostic document."

/-- `agents.py` `verify_report`. -/
def verify_report (blood_text : String) : String :=
  if 3 ≤ hits blood_text then validReportMsg else invalidReportMsg

/-! ### `database.py` -/

/-- One row of the `analysis_results` table.  `created_at` is the insertion
timestamp (`datetime.utcnow`), modelled as a `Nat`.  `encrypted_file` holds the
UTF-8 bytes of the encoded string; since UTF-8 encoding is injective we keep
the string itself. -/
structure AnalysisResult where
  id : String
  task_id : String
  filename : String
  query : String
  result_json : Option String
  encrypted_file : Option String
  status : String
  created_at : Nat
  deriving DecidableEq, Repr

/-- `database.py` `create_analysis_record`: inserts a fresh row with
`status="queued"` (and null `result_json`). -/
def create_analysis_record (db : List AnalysisResult)
    (id filename query task_id : String) (encrypted_file_bytes : String)
    (now : Nat) : List AnalysisResult :=
  db ++ [{ id := id, task_id := task_id, filename := filename, query := query,
           result_json := none, encrypted_file := some encrypted_file_bytes,
           status := "queued", created_at := now }]

/-- The mutation `update_analysis` applies to the matched row: `status` is
always overwritten; `result_json` only when the argument is truthy
(`if result_json:`), so `None` and `""` leave it alone. -/
def applyUpd (r : AnalysisResult) (status : String) (result_json : Option String) :
    AnalysisResult :=
  { r with
    status := status
    result_json :=
      match result_json with
      | none => r.result_json
      | some s => if s = "" then r.result_json else some s }

/-- `database.py` `update_analysis`: `.filter_by(task_id=task_id).first()`
returns the first matching row; if none matches nothing happens. -/
def update_analysis (db : List AnalysisResult) (task_id status : String)
    (result_json : Option String) : List AnalysisResult :=
  match db with
  | [] => []
  | r :: rest =>
    if r.task_id = task_id then applyUpd r status result_json :: rest
    else r :: update_analysis rest task_id status result_json

/-- Insert a row into a list kept in descending `created_at` order, before the
first row whose timestamp does not exceed it. -/
def insertDesc (r : AnalysisResult) : List AnalysisResult → List AnalysisResult
  | [] => [r]
  | x :: xs =>
    if x.created_at ≤ r.created_at then r :: x :: xs else x :: insertDesc r xs

/-- Stable insertion sort by descending `created_at`. -/
def sortByCreatedDesc : List AnalysisResult → List AnalysisResult
  | [] => []
  | r :: rest => insertDesc r (sortByCreatedDesc rest)

/-- `database.py` `get_all_analyses`: `ORDER BY created_at DESC`.  SQLite
leaves the relative order of equal timestamps unspecified; a stable sort is
one faithful refinement of that. -/
def get_all_analyses (db : List AnalysisResult) : List AnalysisResult :=
  sortByCreatedDesc db

inductive RetrieveError where
  | decryptionFailed : RetrieveError
  | notFound : RetrieveError
  deriving DecidableEq, Repr

/-- `database.py` `retrieve_encrypted_file`: a pure read — decrypts the stored
payload of the row with the given id, never writing to the store. -/
def retrieve_encrypted_file (db : List AnalysisResult) (analysis_id : String) :
    Except RetrieveError (Bytes × String) :=
  match db.find? (fun r => r.id == analysis_id) with
  | some r =>
    match r.encrypted_file with
    | some enc =>
      match decrypt_file enc with
      | .ok data => .ok (data, r.filename)
      | .error _ => .error .decryptionFailed
    | none => .error .notFound
  | none => .error .notFound

/-! ### `main.py`: the `POST /analyze` endpoint -/

structure HTTPError where
  status : Nat
  detail : String
  deriving DecidableEq, Repr

structure AnalyzeOk where
  status : String
  task_id : String
  analysis_id : String
  file_processed : String
  query : String
  deriving DecidableEq, Repr

/-- A job handed to the execution substrate: `apply_async(args=[arg1, arg2],
task_id=task_id)`; `arg1` is bound to the worker's `blood_text` parameter and
`arg2` to its `query` parameter. -/
structure QueuedJob where
  task_id : String
  arg1 : String
  arg2 : String
  deriving DecidableEq, Repr

inductive Effect where
  | dbInsert : AnalysisResult → Effect
  | enqueue : QueuedJob → Effect
  deriving DecidableEq, Repr

structure ServerState where
  db : List AnalysisResult
  queue : List QueuedJob
  deriving DecidableEq, Repr

/-- The body of the `try:` block of `analyze_blood_report`.  `read_pdf_bytes`
(from `tools.py`, outside `src/`) is a parameter; `file_id`, `task_id` are the
generated UUIDs and `now` the row timestamp. -/
def analyze_body (read_pdf_bytes : Bytes → String)
    (filename : String) (content : Bytes) (query : String)
    (file_id task_id : String) (now : Nat) (s : ServerState) :
    Except HTTPError (AnalyzeOk × ServerState × List Effect) :=
  if ¬ strEndsWith (pyLower filename) ".pdf" then
    .error ⟨400, "Only PDF files are supported."⟩
  else
    let blood_text := read_pdf_bytes content
    if stripIsEmpty blood_text then
      .error ⟨400, "Uploaded PDF has no readable text."⟩
    else
      let encrypted_string := encrypt_file content
      let newRow : AnalysisResult :=
        { id := file_id, task_id := task_id, filename := filename,
          query := pyStrip query, result_json := none,
          encrypted_file := some encrypted_string,
          status := "queued", created_at := now }
      let job : QueuedJob := ⟨task_id, encrypted_string, pyStrip query⟩
      .ok (⟨"queued", task_id, file_id, filename, query⟩,
           ⟨create_analysis_record s.db file_id filename (pyStrip query) task_id
              encrypted_string now,
            s.queue ++ [job]⟩,
           [.dbInsert newRow, .enqueue job])

/-- `main.py` `analyze_blood_report`: any exception escaping the body —
including the two `HTTPException(400)`s raised inside the `try:` — is caught
by `except Exception` and re-raised as an `HTTPException(500)` whose detail
wraps the original message (the traceback text is elided).  On error the
server state is unchanged and no effect is emitted. -/
def analyze_blood_report (read_pdf_bytes : Bytes → String)
    (filename : String) (content : Bytes) (query : String)
    (file_id task_id : String) (now : Nat) (s : ServerState) :
    Except HTTPError AnalyzeOk × ServerState × List Effect :=
  match analyze_body read_pdf_bytes filename content query file_id task_id now s with
  | .ok (resp, s', effs) => (.ok resp, s', effs)
  | .error e =>
    (.error ⟨500, "Failed to queue analysis task: " ++ e.detail⟩, s, [])

/-! ### `worker_tasks.py`: the Celery task and its retry driver -/

/-- The five stage outputs of a successful crew run, plus the formatted
duration string. -/
structure CrewOutputs where
  verification_result : String
  doctor_analysis : String
  nutrition_advice : String
  exercise_plan : String
  direct_answer : String
  processing_time : String
  deriving DecidableEq, Repr

/-- Minimal JSON string escaping, standing in for what `json.dumps` does to
each field. -/
def jsonEscape (s : String) : String :=
  String.join (s.toList.map fun c =>
    if c = '"' then "\\\"" else if c = '\\' then "\\\\" else String.mk [c])

/-- `json.dumps(result_data)` for the worker's result dictionary. -/
def json_dumps_result (o : CrewOutputs) : String :=
  "\x7b\"verification_result\": \"" ++ jsonEscape o.verification_result ++
  "\", \"doctor_analysis\": \"" ++ jsonEscape o.doctor_analysis ++
  "\", \"nutrition_advice\": \"" ++ jsonEscape o.nutrition_advice ++
  "\", \"exercise_plan\": \"" ++ jsonEscape o.exercise_plan ++
  "\", \"direct_answer\": \"" ++ jsonEscape o.direct_answer ++
  "\", \"processing_time\": \"" ++ jsonEscape o.processing_time ++ "\"\x7d"

/-- `@celery_app.task(bind=True, max_retries=2, ...)` (`worker_tasks.py:17`). -/
def max_retries : Nat := 2

/-- `@celery_app.task(..., default_retry_delay=60)` (`worker_tasks.py:17`). -/
def default_retry_delay : Nat := 60

/-- Modelled from the spec: the Celery runtime (outside `src/`) delivers the
task body up to `1 + max_retries` times; `self.retry` re-enqueues the job
after `default_retry_delay` seconds unless the retry budget is exhausted.
Each element of `outcomes` is the crew result of one delivered attempt
(`some o` = `crew.kickoff` succeeded with outputs `o`, `none` = the body
raised).  The task body itself is `process_blood_test_analysis`
(`worker_tasks.py:17-69`): set `processing`, run the crew, then set
`completed` with the dumped result, or set `failed` and retry.  The vector
memory write is fire-and-forget and touches no row, so it does not appear.
Returns the list of intermediate database states, the number of attempts
actually executed, and the scheduled retry delays. -/
def run_job (tid : String) (outcomes : List (Option CrewOutputs))
    (retriesLeft : Nat) (db : List AnalysisResult) :
    List (List AnalysisResult) × Nat × List Nat :=
  match outcomes with
  | [] => ([], 0, [])
  | o :: rest =>
    let db1 := update_analysis db tid "processing" none
    match o with
    | some out =>
      let db2 := update_analysis db1 tid "completed" (some (json_dumps_result out))
      ([db1, db2], 1, [])
    | none =>
      let db2 := update_analysis db1 tid "failed" none
      match retriesLeft with
      | 0 => ([db1, db2], 1, [])
      | n + 1 =>
        let r := run_job tid rest n db2
        ([db1, db2] ++ r.1, r.2.1 + 1, default_retry_delay :: r.2.2)

/-- Every database state passed through by one upload's lifecycle: the state
right after `POST /analyze` returns, then each state the Task Runner's
updates produce. -/
def lifecycle_states (read_pdf_bytes : Bytes → String)
    (filename : String) (content : Bytes) (query : String)
    (file_id task_id : String) (now : Nat) (pre : List AnalysisResult)
    (outcomes : List (Option CrewOutputs)) : List (List AnalysisResult) :=
  let a := analyze_blood_report read_pdf_bytes filename content query
             file_id task_id now ⟨pre, []⟩
  a.2.1.db :: (run_job task_id outcomes max_retries a.2.1.db).1

/-- One element of the `GET /history` response.  `result` is
`json.loads(r.result_json) if r.result_json else None`; `json.loads` is
Python stdlib, so the parsed payload is kept as the serialized text. -/
structure HistoryEntry where
  analysis_id : String
  task_id : String
  filename : String
  query : String
  status : String
  created_at : Nat
  result : Option String
  deriving DecidableEq, Repr

/-- `main.py` `get_all_task_history`: maps `get_all_analyses` in order. -/
def get_all_task_history (db : List AnalysisResult) : List HistoryEntry :=
  (get_all_analyses db).map fun r =>
    ⟨r.id, r.task_id, r.filename, r.query, r.status, r.created_at, r.result_json⟩

/-! ### Correctness of the substring primitives -/

theorem strStartsWith_iff :
    ∀ hay needle : List Char,
      strStartsWith hay needle = true ↔ ∃ rest, hay = needle ++ rest
  | hay, [] => by simp [strStartsWith]
  | [], b :: bs => by simp [strStartsWith]
  | a :: as, b :: bs => by
    simp only [strStartsWith, Bool.and_eq_true, beq_iff_eq,
      strStartsWith_iff as bs, List.cons_append]
    constructor
    · rintro ⟨h1, rest, h2⟩
      exact ⟨rest, by rw [h1, h2]⟩
    · rintro ⟨rest, h⟩
      injection h with h1 h2
      exact ⟨h1, rest, h2⟩

theorem strContains_iff :
    ∀ hay needle : List Char,
      strContains hay needle = true ↔ ∃ pre post, hay = pre ++ needle ++ post
  | [], needle => by
    cases needle with
    | nil => simp [strContains]
    | cons b bs =>
      simp only [strContains, List.isEmpty_cons]
      constructor
      · intro h; cases h
      · rintro ⟨pre, post, h⟩
        exact absurd h.symm (by simp)
  | h :: t, needle => by
    simp only [strContains, Bool.or_eq_true, strStartsWith_iff,
      strContains_iff t needle]
    constructor
    · rintro (⟨rest, hr⟩ | ⟨pre, post, hp⟩)
      · exact ⟨[], rest, by simpa using hr⟩
      · exact ⟨h :: pre, post, by simp [hp]⟩
    · rintro ⟨pre, post, hp⟩
      cases pre with
      | nil => exact .inl ⟨post, by simpa using hp⟩
      | cons p ps =>
        right
        rw [List.cons_append, List.cons_append] at hp
        injection hp with h1 h2
        exact ⟨ps, post, by simpa using h2⟩

/-- The keyword `w` occurs in `t`, case-insensitively (the spec's notion of a
keyword being "present"). -/
def OccursCI (w t : String) : Prop :=
  ∃ pre post, (pyLower t).toList = pre ++ (pyLower w).toList ++ post

theorem keywordHit_iff (t w : String) : keywordHit t w = true ↔ OccursCI w t :=
  strContains_iff (pyLower t).toList (pyLower w).toList

theorem three_le_filter_iff {α : Type} [DecidableEq α] {l : List α} {p : α → Bool}
    (hnd : l.Nodup) :
    3 ≤ (l.filter p).length ↔
      ∃ a b c, a ∈ l ∧ b ∈ l ∧ c ∈ l ∧ a ≠ b ∧ a ≠ c ∧ b ≠ c ∧
        p a = true ∧ p b = true ∧ p c = true := by
  constructor
  · intro hle
    obtain ⟨a, b, c, rest, hlf⟩ :
        ∃ a b c rest, l.filter p = a :: b :: c :: rest := by
      match h : l.filter p with
      | [] => rw [h] at hle; simp at hle
      | [a] => rw [h] at hle; simp at hle
      | [a, b] => rw [h] at hle; simp at hle
      | a :: b :: c :: rest => exact ⟨a, b, c, rest, rfl⟩
    have hndf := hnd.filter p
    rw [hlf] at hndf
    have hab : a ≠ b := by
      intro h; subst h; simp [List.nodup_cons] at hndf
    have hac : a ≠ c := by
      intro h; subst h; simp [List.nodup_cons] at hndf
    have hbc : b ≠ c := by
      intro h; subst h; simp [List.nodup_cons] at hndf
    have ha : a ∈ l.filter p := by rw [hlf]; simp
    have hb : b ∈ l.filter p := by rw [hlf]; simp
    have hc : c ∈ l.filter p := by rw [hlf]; simp
    obtain ⟨ha1, ha2⟩ := List.mem_filter.mp ha
    obtain ⟨hb1, hb2⟩ := List.mem_filter.mp hb
    obtain ⟨hc1, hc2⟩ := List.mem_filter.mp hc
    exact ⟨a, b, c, ha1, hb1, hc1, hab, hac, hbc, ha2, hb2, hc2⟩
  · rintro ⟨a, b, c, ha, hb, hc, hab, hac, hbc, hpa, hpb, hpc⟩
    have hsub : ({a, b, c} : Finset α) ⊆ (l.filter p).toFinset := by
      intro x hx
      simp only [Finset.mem_insert, Finset.mem_singleton] at hx
      rw [List.mem_toFinset, List.mem_filter]
      rcases hx with rfl | rfl | rfl
      · exact ⟨ha, hpa⟩
      · exact ⟨hb, hpb⟩
      · exact ⟨hc, hpc⟩
    have hcard : ({a, b, c} : Finset α).card = 3 := by
      rw [Finset.card_insert_of_not_mem (by simp [hab, hac]),
        Finset.card_insert_of_not_mem (by simp [hbc]), Finset.card_singleton]
    calc 3 = ({a, b, c} : Finset α).card := hcard.symm
      _ ≤ (l.filter p).toFinset.card := Finset.card_le_card hsub
      _ ≤ (l.filter p).length := (l.filter p).toFinset_card_le

theorem keywords_nodup : keywords.Nodup := by decide

theorem verify_report_eq_iff (t : String) :
    verify_report t = validReportMsg ↔ 3 ≤ hits t := by
  unfold verify_report
  split
  · simp_all
  · have hne : invalidReportMsg ≠ validReportMsg := by decide
    simp_all

/-- C4: `verify_report` answers positively exactly when at least 3 distinct
keywords of the fixed set occur in the text, case-insensitively; a text
containing only "Patient" fails, and a text containing "Reference Range",
"Result" and "Units" passes. -/
theorem verify_report_keyword_spec :
    (∀ t : String, verify_report t = validReportMsg ↔
        ∃ w1 w2 w3, w1 ∈ keywords ∧ w2 ∈ keywords ∧ w3 ∈ keywords ∧
          w1 ≠ w2 ∧ w1 ≠ w3 ∧ w2 ≠ w3 ∧
          OccursCI w1 t ∧ OccursCI w2 t ∧ OccursCI w3 t)
    ∧ verify_report "Patient" ≠ validReportMsg
    ∧ verify_report "Reference Range Result Units" = validReportMsg := by
  refine ⟨fun t => ?_, by decide, by decide⟩
  rw [verify_report_eq_iff]
  unfold hits
  rw [three_le_filter_iff keywords_nodup]
  constructor
  · rintro ⟨a, b, c, ha, hb, hc, hab, hac, hbc, hpa, hpb, hpc⟩
    exact ⟨a, b, c, ha, hb, hc, hab, hac, hbc,
      (keywordHit_iff t a).mp hpa, (keywordHit_iff t b).mp hpb,
      (keywordHit_iff t c).mp hpc⟩
  · rintro ⟨a, b, c, ha, hb, hc, hab, hac, hbc, hpa, hpb, hpc⟩
    exact ⟨a, b, c, ha, hb, hc, hab, hac, hbc,
      (keywordHit_iff t a).mpr hpa, (keywordHit_iff t b).mpr hpb,
      (keywordHit_iff t c).mpr hpc⟩

/-! ### Crypto codec lemmas (C8) -/

theorem xorKS_invol : ∀ (i : Nat) (bs : Bytes), xorKS i (xorKS i bs) = bs
  | _, [] => rfl
  | i, b :: rest => by
    simp only [xorKS, xorKS_invol (i + 1) rest, List.cons.injEq, and_true]
    apply Fin.ext
    exact Nat.xor_cancel_right _ _

theorem charToNibble_nibbleToChar :
    ∀ n : Fin 16, charToNibble (nibbleToChar n.val) = some n := by decide

theorem nibbleToChar_charToNibble {c : Char} {m : Fin 16}
    (h : charToNibble c = some m) : nibbleToChar m.val = c := by
  unfold charToNibble at h
  split at h
  · rename_i hr
    injection h with h
    subst h
    unfold nibbleToChar
    simp only [show c.toNat - 48 < 10 by omega, if_pos]
    rw [show 48 + (c.toNat - 48) = c.toNat by omega, Char.ofNat_toNat]
  · split at h
    · rename_i hr
      injection h with h
      subst h
      unfold nibbleToChar
      simp only [show ¬ (c.toNat - 87 < 10) by omega, if_neg, not_false_iff]
      rw [show 87 + (c.toNat - 87) = c.toNat by omega, Char.ofNat_toNat]
    · cases h

theorem hexDecode_hexEncode : ∀ bs : Bytes, hexDecodeL (hexEncodeL bs) = some bs
  | [] => rfl
  | b :: rest => by
    have h1 : b.val / 16 < 16 := by omega
    have h2 : b.val % 16 < 16 := by omega
    simp only [hexEncodeL, hexDecodeL,
      charToNibble_nibbleToChar ⟨b.val / 16, h1⟩,
      charToNibble_nibbleToChar ⟨b.val % 16, h2⟩,
      hexDecode_hexEncode rest]
    congr 1
    simp only [List.cons.injEq, and_true]
    apply Fin.ext
    simp only []
    omega

theorem hexEncode_of_decode : ∀ (s : List Char) (bs : Bytes),
    hexDecodeL s = some bs → hexEncodeL bs = s
  | [], bs => by
    intro h
    simp only [hexDecodeL, Option.some.injEq] at h
    subst h
    rfl
  | [c], bs => by intro h; simp [hexDecodeL] at h
  | c1 :: c2 :: rest, bs => by
    intro h
    simp only [hexDecodeL] at h
    cases hn1 : charToNibble c1 with
    | none => rw [hn1] at h; cases h
    | some hi =>
      cases hn2 : charToNibble c2 with
      | none => rw [hn1, hn2] at h; cases h
      | some lo =>
        cases hr : hexDecodeL rest with
        | none => rw [hn1, hn2, hr] at h; cases h
        | some tl =>
          rw [hn1, hn2, hr] at h
          injection h with h
          subst h
          have hlo : lo.val < 16 := lo.isLt
          simp only [hexEncodeL, hexEncode_of_decode rest tl hr]
          rw [show (hi.val * 16 + lo.val) / 16 = hi.val by omega,
            show (hi.val * 16 + lo.val) % 16 = lo.val by omega,
            nibbleToChar_charToNibble hn1, nibbleToChar_charToNibble hn2]

theorem hexEncodeL_length : ∀ bs : Bytes, (hexEncodeL bs).length = 2 * bs.length
  | [] => rfl
  | _ :: rest => by
    simp only [hexEncodeL, List.length_cons, hexEncodeL_length rest]
    omega

/-- C8: `decrypt_file (encrypt_file x) = x` for every byte string including
the empty one, and `decrypt_file` fails with `DecryptionError` on every
string not produced by `encrypt_file`. -/
theorem crypto_roundtrip_spec :
    (∀ x : Bytes, decrypt_file (encrypt_file x) = .ok x)
    ∧ (∀ y : String, (∀ x : Bytes, encrypt_file x ≠ y) →
        decrypt_file y = .error DecryptionError.malformed) := by
  constructor
  · intro x
    unfold encrypt_file decrypt_file
    have hstr : (String.mk (hexEncodeL (xorKS 0 x))).toList = hexEncodeL (xorKS 0 x) := rfl
    rw [hstr, hexDecode_hexEncode]
    exact congrArg Except.ok (xorKS_invol 0 x)
  · intro y hy
    unfold decrypt_file
    cases hd : hexDecodeL y.toList with
    | none => rfl
    | some bs =>
      exfalso
      apply hy (xorKS 0 bs)
      unfold encrypt_file
      rw [xorKS_invol, hexEncode_of_decode _ _ hd]
      rfl

/-- Witness for C8's second conjunct: the string `"0"` (odd length) is not a
well-formed encoding, hence not in `encrypt_file`'s range, and `decrypt_file`
rejects it. -/
theorem crypto_roundtrip_spec_witness :
    (∀ x : Bytes, encrypt_file x ≠ "0")
    ∧ decrypt_file "0" = .error DecryptionError.malformed := by
  have hne : ∀ x : Bytes, encrypt_file x ≠ "0" := by
    intro x hx
    have h1 : (encrypt_file x).toList.length = ("0" : String).toList.length := by
      rw [hx]
    have h2 : (encrypt_file x).toList = hexEncodeL (xorKS 0 x) := rfl
    have h3 : ("0" : String).toList.length = 1 := rfl
    rw [h2, hexEncodeL_length, h3] at h1
    omega
  exact ⟨hne, crypto_roundtrip_spec.2 "0" hne⟩

/-! ### `update_analysis` lemmas -/

/-- The fields `update_analysis` never touches. -/
def frameProj (r : AnalysisResult) :
    String × String × String × String × Option String × Nat :=
  (r.id, r.task_id, r.filename, r.query, r.encrypted_file, r.created_at)

theorem update_analysis_map_frame :
    ∀ (db : List AnalysisResult) (tid st : String) (rj : Option String),
      (update_analysis db tid st rj).map frameProj = db.map frameProj
  | [], _, _, _ => rfl
  | r :: rest, tid, st, rj => by
    simp only [update_analysis]
    split
    · simp [frameProj, applyUpd]
    · simp [update_analysis_map_frame rest tid st rj]

theorem mem_update_analysis
    {a : AnalysisResult} :
    ∀ {db : List AnalysisResult} {tid st : String} {rj : Option String},
      a ∈ update_analysis db tid st rj →
      a ∈ db ∨ ∃ r ∈ db, r.task_id = tid ∧ a = applyUpd r st rj
  | [], _, _, _, h => by cases h
  | r :: rest, tid, st, rj, h => by
    simp only [update_analysis] at h
    split at h
    · rename_i heq
      rcases List.mem_cons.mp h with h1 | h1
      · exact .inr ⟨r, List.mem_cons_self r rest, heq, h1⟩
      · exact .inl (List.mem_cons_of_mem r h1)
    · rcases List.mem_cons.mp h with h1 | h1
      · exact .inl (h1 ▸ List.mem_cons_self r rest)
      · rcases mem_update_analysis h1 with h2 | ⟨r', hr', htid, ha⟩
        · exact .inl (List.mem_cons_of_mem r h2)
        · exact .inr ⟨r', List.mem_cons_of_mem r hr', htid, ha⟩

theorem update_analysis_of_no_match :
    ∀ (db : List AnalysisResult) (tid st : String) (rj : Option String),
      (∀ r ∈ db, r.task_id ≠ tid) → update_analysis db tid st rj = db
  | [], _, _, _, _ => rfl
  | r :: rest, tid, st, rj, h => by
    simp only [update_analysis]
    rw [if_neg (h r (List.mem_cons_self r rest))]
    rw [update_analysis_of_no_match rest tid st rj
      (fun r' hr' => h r' (List.mem_cons_of_mem r hr'))]

theorem update_analysis_map_result_json_none :
    ∀ (db : List AnalysisResult) (tid st : String),
      (update_analysis db tid st none).map (fun r => r.result_json)
        = db.map (fun r => r.result_json)
  | [], _, _ => rfl
  | r :: rest, tid, st => by
    simp only [update_analysis]
    split
    · simp [applyUpd]
    · simp [update_analysis_map_result_json_none rest tid st]

/-! ### Sorting lemmas (C9) -/

theorem insertDesc_perm (r : AnalysisResult) :
    ∀ l : List AnalysisResult, (insertDesc r l).Perm (r :: l)
  | [] => List.Perm.refl _
  | x :: xs => by
    simp only [insertDesc]
    split
    · exact List.Perm.refl _
    · exact ((insertDesc_perm r xs).cons x).trans (List.Perm.swap r x xs)

theorem sortByCreatedDesc_perm :
    ∀ l : List AnalysisResult, (sortByCreatedDesc l).Perm l
  | [] => List.Perm.refl _
  | r :: rest =>
    (insertDesc_perm r (sortByCreatedDesc rest)).trans
      ((sortByCreatedDesc_perm rest).cons r)

theorem insertDesc_pairwise (r : AnalysisResult) :
    ∀ l : List AnalysisResult,
      l.Pairwise (fun a b => b.created_at ≤ a.created_at) →
      (insertDesc r l).Pairwise (fun a b => b.created_at ≤ a.created_at)
  | [], _ => List.pairwise_singleton _ r
  | x :: xs, h => by
    obtain ⟨hx, hxs⟩ := List.pairwise_cons.mp h
    simp only [insertDesc]
    split
    · rename_i hle
      refine List.pairwise_cons.mpr ⟨?_, h⟩
      intro y hy
      rcases List.mem_cons.mp hy with rfl | hy'
      · exact hle
      · exact le_trans (hx y hy') hle
    · rename_i hlt
      refine List.pairwise_cons.mpr ⟨?_, insertDesc_pairwise r xs hxs⟩
      intro y hy
      rcases List.mem_cons.mp ((insertDesc_perm r xs).mem_iff.mp hy) with rfl | hy'
      · exact le_of_not_le hlt
      · exact hx y hy'

theorem sortByCreatedDesc_pairwise :
    ∀ l : List AnalysisResult,
      (sortByCreatedDesc l).Pairwise (fun a b => b.created_at ≤ a.created_at)
  | [] => List.Pairwise.nil
  | r :: rest => insertDesc_pairwise r _ (sortByCreatedDesc_pairwise rest)

/-- A sample row used by concrete witnesses. -/
def sampleRow : AnalysisResult :=
  { id := "id1", task_id := "task-a", filename := "a.pdf", query := "q",
    result_json := none, encrypted_file := none, status := "queued",
    created_at := 5 }

/-- A second sample row with the same `created_at` as `sampleRow`. -/
def sampleRow2 : AnalysisResult :=
  { id := "id2", task_id := "task-b", filename := "b.pdf", query := "q",
    result_json := none, encrypted_file := none, status := "queued",
    created_at := 5 }

/-- C7: the status/result update touches only `status` and `result_json`:
`id`, `task_id`, `filename`, `query`, the encrypted payload and `created_at`
of every row are unchanged, and creation writes the payload exactly once,
appending a row that carries it. -/
theorem update_analysis_frame_effect :
    (∀ (db : List AnalysisResult) (tid st : String) (rj : Option String),
        (update_analysis db tid st rj).map frameProj = db.map frameProj)
    ∧ (∀ (db : List AnalysisResult) (id fn q tid enc : String) (now : Nat),
        (create_analysis_record db id fn q tid enc now).map
            (fun r => r.encrypted_file)
          = db.map (fun r => r.encrypted_file) ++ [some enc]) := by
  refine ⟨update_analysis_map_frame, ?_⟩
  intro db id fn q tid enc now
  simp [create_analysis_record]

/-- C10: updating a `task_id` that matches no row is a no-op: it raises no
error and leaves the table exactly as it was. -/
theorem update_analysis_unmatched_noop (db : List AnalysisResult)
    (tid st : String) (rj : Option String)
    (h : ∀ r ∈ db, r.task_id ≠ tid) :
    update_analysis db tid st rj = db :=
  update_analysis_of_no_match db tid st rj h

/-- Witness for C10 at a concrete one-row table and a missing `task_id`. -/
theorem update_analysis_unmatched_noop_witness :
    (∀ r ∈ [sampleRow], r.task_id ≠ "task-z")
    ∧ update_analysis [sampleRow] "task-z" "failed" none = [sampleRow] :=
  ⟨by decide, update_analysis_unmatched_noop [sampleRow] "task-z" "failed" none
    (by decide)⟩

/-- C9 counterexample: with two rows sharing a `created_at`, the list
`GET /history` reads is not strictly descending in `created_at`, so the claim
fails at this database state. -/
theorem history_strict_desc_counterexample :
    ¬ List.Pairwise (fun a b => b.created_at < a.created_at)
        (get_all_analyses [sampleRow, sampleRow2]) := by decide

/-- C9 (amended): `GET /history` returns all persisted records ordered by
`created_at` in non-increasing (descending, ties possible) order. -/
theorem history_sorted_desc (db : List AnalysisResult) :
    (get_all_analyses db).Perm db
    ∧ (get_all_analyses db).Pairwise (fun a b => b.created_at ≤ a.created_at)
    ∧ (get_all_task_history db).map (fun e => e.created_at)
        = (get_all_analyses db).map (fun r => r.created_at) := by
  refine ⟨sortByCreatedDesc_perm db, sortByCreatedDesc_pairwise db, ?_⟩
  simp [get_all_task_history, List.map_map]

/-- A concrete stand-in for `BloodTestReportTool.read_pdf_bytes`: extraction
of this sample PDF yields a fixed lab-report text. -/
def readPdfDemo : Bytes → String :=
  fun _ => "Hemoglobin 9.5 Reference Range 13-17 Glucose 140"

/-- C1 (code bug): for an accepted upload, `POST /analyze` enqueues the
encrypted payload string — not the extracted text — as the first argument,
the one bound to the worker's `blood_text` parameter
(`apply_async(args=[encrypted_string, ...])`, `main.py:70-71`). -/
theorem analyze_enqueues_encrypted_payload :
    (analyze_blood_report readPdfDemo "report.pdf" [37, 80, 68, 70] "q"
        "fid" "tid" 0 ⟨[], []⟩).1
      = .ok ⟨"queued", "tid", "fid", "report.pdf", "q"⟩
    ∧ (analyze_blood_report readPdfDemo "report.pdf" [37, 80, 68, 70] "q"
        "fid" "tid" 0 ⟨[], []⟩).2.1.queue
      = [⟨"tid", encrypt_file [37, 80, 68, 70], "q"⟩]
    ∧ encrypt_file [37, 80, 68, 70] ≠ readPdfDemo [37, 80, 68, 70] := by
  refine ⟨rfl, rfl, by decide⟩

/-- C2 (code bug): the two `HTTPException(400)`s of `analyze_blood_report`
are swallowed by its own `except Exception` and re-raised as 500, so a
non-PDF filename and an empty-text PDF both answer HTTP 500 — not 400 —
while still creating no record and enqueuing no job. -/
theorem analyze_validation_returns_500 :
    analyze_blood_report readPdfDemo "notes.txt" [1] "q" "f" "t" 0 ⟨[], []⟩
      = (.error ⟨500, "Failed to queue analysis task: Only PDF files are supported."⟩,
         ⟨[], []⟩, [])
    ∧ analyze_blood_report (fun _ => "") "doc.pdf" [1] "q" "f" "t" 0 ⟨[], []⟩
      = (.error ⟨500, "Failed to queue analysis task: Uploaded PDF has no readable text."⟩,
         ⟨[], []⟩, []) := by
  refine ⟨rfl, rfl⟩

/-- C6: the row is persisted strictly before the job is handed to the
execution substrate — the effect trace of an accepted upload is
`[dbInsert, enqueue]` with matching `task_id` — so whenever every queued job
already has a matching row, that still holds after `POST /analyze`. -/
theorem analyze_record_before_enqueue
    (read_pdf_bytes : Bytes → String) (filename : String) (content : Bytes)
    (query file_id task_id : String) (now : Nat) (s : ServerState)
    (hinv : ∀ j ∈ s.queue, ∃ r ∈ s.db, r.task_id = j.task_id) :
    (∀ j ∈ (analyze_blood_report read_pdf_bytes filename content query
              file_id task_id now s).2.1.queue,
        ∃ r ∈ (analyze_blood_report read_pdf_bytes filename content query
                file_id task_id now s).2.1.db,
          r.task_id = j.task_id)
    ∧ (∀ resp, (analyze_blood_report read_pdf_bytes filename content query
                  file_id task_id now s).1 = .ok resp →
        ∃ row job,
          (analyze_blood_report read_pdf_bytes filename content query
              file_id task_id now s).2.2
            = [Effect.dbInsert row, Effect.enqueue job]
          ∧ row.task_id = task_id ∧ job.task_id = task_id) := by
  simp only [analyze_blood_report, analyze_body, create_analysis_record]
  by_cases h1 : strEndsWith (pyLower filename) ".pdf" = true
  · simp only [h1, not_true, if_false, if_neg, Bool.not_eq_true]
    by_cases h2 : stripIsEmpty (read_pdf_bytes content) = true
    · simp only [h2, if_true]
      exact ⟨hinv, by intro resp h; cases h⟩
    · simp only [h2, if_false, Bool.false_eq_true]
      constructor
      · intro j hj
        rcases List.mem_append.mp hj with hj1 | hj2
        · obtain ⟨r, hr, htid⟩ := hinv j hj1
          exact ⟨r, List.mem_append_left _ hr, htid⟩
        · rcases List.mem_singleton.mp hj2 with rfl
          refine ⟨_, List.mem_append_right _ (List.mem_singleton_self _), rfl⟩
      · intro resp _
        exact ⟨_, _, rfl, rfl, rfl⟩
  · simp only [h1]
    simp only [Bool.false_eq_true, not_false_iff, if_true]
    exact ⟨hinv, by intro resp h; cases h⟩

/-- Witness for C6 at a concrete accepted upload on an empty server state. -/
theorem analyze_record_before_enqueue_witness :
    (∀ j ∈ (⟨[], []⟩ : ServerState).queue,
        ∃ r ∈ (⟨[], []⟩ : ServerState).db, r.task_id = j.task_id)
    ∧ ((∀ j ∈ (analyze_blood_report readPdfDemo "a.pdf" [1, 2] "q"
                  "f" "t" 0 ⟨[], []⟩).2.1.queue,
          ∃ r ∈ (analyze_blood_report readPdfDemo "a.pdf" [1, 2] "q"
                  "f" "t" 0 ⟨[], []⟩).2.1.db,
            r.task_id = j.task_id)
      ∧ (∀ resp, (analyze_blood_report readPdfDemo "a.pdf" [1, 2] "q"
                    "f" "t" 0 ⟨[], []⟩).1 = .ok resp →
          ∃ row job,
            (analyze_blood_report readPdfDemo "a.pdf" [1, 2] "q"
                "f" "t" 0 ⟨[], []⟩).2.2
              = [Effect.dbInsert row, Effect.enqueue job]
            ∧ row.task_id = "t" ∧ job.task_id = "t")) :=
  ⟨by simp,
   analyze_record_before_enqueue readPdfDemo "a.pdf" [1, 2] "q" "f" "t" 0
     ⟨[], []⟩ (by simp)⟩

/-! ### Lifecycle invariant (C3) -/

/-- The table-wide invariant of C3: a row carries a result exactly when it is
`completed`. -/
def Inv (db : List AnalysisResult) : Prop :=
  ∀ r ∈ db, (r.result_json ≠ none ↔ r.status = "completed")

/-- Every row of the job under processing still has a null `result_json`. -/
def NoneAt (db : List AnalysisResult) (tid : String) : Prop :=
  ∀ r ∈ db, r.task_id = tid → r.result_json = none

theorem inv_update_none {db : List AnalysisResult} {tid : String}
    (h : Inv db) (hn : NoneAt db tid) (st : String) (hst : st ≠ "completed") :
    Inv (update_analysis db tid st none) := by
  intro a ha
  rcases mem_update_analysis ha with h1 | ⟨r, hr, htid, rfl⟩
  · exact h a h1
  · simp [applyUpd, hn r hr htid, hst]

theorem noneAt_update_none {db : List AnalysisResult} {tid : String}
    (hn : NoneAt db tid) (st : String) :
    NoneAt (update_analysis db tid st none) tid := by
  intro a ha hat
  rcases mem_update_analysis ha with h1 | ⟨r, hr, htid, rfl⟩
  · exact hn a h1 hat
  · simpa [applyUpd] using hn r hr htid

theorem inv_update_completed {db : List AnalysisResult} {tid : String}
    (h : Inv db) {j : String} (hj : j ≠ "") :
    Inv (update_analysis db tid "completed" (some j)) := by
  intro a ha
  rcases mem_update_analysis ha with h1 | ⟨r, hr, htid, rfl⟩
  · exact h a h1
  · simp [applyUpd, hj]

theorem json_dumps_result_ne_empty (o : CrewOutputs) :
    json_dumps_result o ≠ "" := by
  intro h
  have h1 : (json_dumps_result o).length = 0 := by rw [h]; rfl
  unfold json_dumps_result at h1
  repeat rw [String.length_append] at h1
  have hc : 0 < ("\x7b\"verification_result\": \"" : String).length := by decide
  omega

/-- The database after `POST /analyze`: either untouched (a 400/500 path) or
the old table plus one fresh `queued` row for this `task_id`. -/
theorem analyze_db_cases (read_pdf_bytes : Bytes → String) (filename : String)
    (content : Bytes) (query file_id task_id : String) (now : Nat)
    (s : ServerState) :
    (analyze_blood_report read_pdf_bytes filename content query file_id
        task_id now s).2.1.db = s.db
    ∨ ∃ row, (analyze_blood_report read_pdf_bytes filename content query
          file_id task_id now s).2.1.db = s.db ++ [row]
        ∧ row.task_id = task_id ∧ row.result_json = none
        ∧ row.status = "queued" := by
  simp only [analyze_blood_report, analyze_body, create_analysis_record]
  by_cases h1 : strEndsWith (pyLower filename) ".pdf" = true
  · simp only [h1, not_true, Bool.not_eq_true]
    by_cases h2 : stripIsEmpty (read_pdf_bytes content) = true
    · simp [h2]
    · simp only [h2, Bool.false_eq_true, if_false]
      exact .inr ⟨_, rfl, rfl, rfl, rfl⟩
  · simp [h1]

theorem run_job_inv (tid : String) :
    ∀ (outcomes : List (Option CrewOutputs)) (rl : Nat)
      (db : List AnalysisResult), Inv db → NoneAt db tid →
      ∀ db' ∈ (run_job tid outcomes rl db).1, Inv db'
  | [], _, _, _, _, _, h => by cases h
  | some out :: rest, rl, db, hinv, hnone, db', hdb' => by
    simp only [run_job, List.mem_cons, List.mem_singleton] at hdb'
    have hinv1 : Inv (update_analysis db tid "processing" none) :=
      inv_update_none hinv hnone "processing" (by decide)
    rcases hdb' with rfl | rfl | h
    · exact hinv1
    · exact inv_update_completed hinv1 (json_dumps_result_ne_empty out)
    · cases h
  | none :: rest, rl, db, hinv, hnone, db', hdb' => by
    have hinv1 : Inv (update_analysis db tid "processing" none) :=
      inv_update_none hinv hnone "processing" (by decide)
    have hnone1 : NoneAt (update_analysis db tid "processing" none) tid :=
      noneAt_update_none hnone "processing"
    have hinv2 :
        Inv (update_analysis (update_analysis db tid "processing" none)
          tid "failed" none) :=
      inv_update_none hinv1 hnone1 "failed" (by decide)
    have hnone2 :
        NoneAt (update_analysis (update_analysis db tid "processing" none)
          tid "failed" none) tid :=
      noneAt_update_none hnone1 "failed"
    match rl with
    | 0 =>
      simp only [run_job, List.mem_cons, List.mem_singleton] at hdb'
      rcases hdb' with rfl | rfl | h
      · exact hinv1
      · exact hinv2
      · cases h
    | n + 1 =>
      simp only [run_job, List.cons_append, List.nil_append,
        List.mem_cons] at hdb'
      rcases hdb' with rfl | rfl | h
      · exact hinv1
      · exact hinv2
      · exact run_job_inv tid rest n _ hinv2 hnone2 db' h

/-- C3: along the upload-and-process lifecycle (row created `queued` by
`POST /analyze`, then mutated only by the Task Runner) every reachable table
state satisfies "`result_json` non-null iff `status = completed`"; and the
`failed` transition (an update with no result argument) never writes
`result_json` anywhere. -/
theorem lifecycle_result_json_iff_completed
    (read_pdf_bytes : Bytes → String) (filename : String) (content : Bytes)
    (query file_id tid : String) (now : Nat) (pre : List AnalysisResult)
    (outcomes : List (Option CrewOutputs))
    (hinv : Inv pre) (hfresh : ∀ r ∈ pre, r.task_id ≠ tid) :
    (∀ db' ∈ lifecycle_states read_pdf_bytes filename content query file_id
        tid now pre outcomes, Inv db')
    ∧ (∀ (db : List AnalysisResult) (st : String),
        (update_analysis db tid st none).map (fun r => r.result_json)
          = db.map (fun r => r.result_json)) := by
  refine ⟨?_, fun db st => update_analysis_map_result_json_none db tid st⟩
  have hcases := analyze_db_cases read_pdf_bytes filename content query
    file_id tid now ⟨pre, []⟩
  have hstart : Inv (analyze_blood_report read_pdf_bytes filename content
        query file_id tid now ⟨pre, []⟩).2.1.db
      ∧ NoneAt (analyze_blood_report read_pdf_bytes filename content
        query file_id tid now ⟨pre, []⟩).2.1.db tid := by
    rcases hcases with heq | ⟨row, heq, hrt, hrj, hrs⟩
    · rw [heq]
      exact ⟨hinv, fun r hr hrt => absurd hrt (hfresh r hr)⟩
    · rw [heq]
      constructor
      · intro r hr
        rcases List.mem_append.mp hr with h1 | h1
        · exact hinv r h1
        · rcases List.mem_singleton.mp h1 with rfl
          rw [hrj, hrs]
          simp
      · intro r hr _
        rcases List.mem_append.mp hr with h1 | h1
        · exact absurd (by assumption) (hfresh r h1)
        · rcases List.mem_singleton.mp h1 with rfl
          exact hrj
  intro db' hdb'
  simp only [lifecycle_states, List.mem_cons] at hdb'
  rcases hdb' with rfl | h
  · exact hstart.1
  · exact run_job_inv tid outcomes max_retries _ hstart.1 hstart.2 db' h

/-- Sample crew outputs for concrete witnesses. -/
def sampleOutputs : CrewOutputs :=
  ⟨"verified", "analysis", "diet", "exercise", "answer", "1.00 seconds"⟩

/-- Witness for C3: a concrete lifecycle — empty pre-existing table, one
failing attempt then one successful retry. -/
theorem lifecycle_result_json_iff_completed_witness :
    Inv ([] : List AnalysisResult)
    ∧ (∀ r ∈ ([] : List AnalysisResult), r.task_id ≠ "t")
    ∧ ((∀ db' ∈ lifecycle_states readPdfDemo "a.pdf" [1] "q" "f" "t" 0 []
          [none, some sampleOutputs], Inv db')
      ∧ (∀ (db : List AnalysisResult) (st : String),
          (update_analysis db "t" st none).map (fun r => r.result_json)
            = db.map (fun r => r.result_json))) :=
  ⟨fun r hr => absurd hr (List.not_mem_nil r),
   fun r hr => absurd hr (List.not_mem_nil r),
   lifecycle_result_json_iff_completed readPdfDemo "a.pdf" [1] "q" "f" "t" 0 []
     [none, some sampleOutputs]
     (fun r hr => absurd hr (List.not_mem_nil r))
     (fun r hr => absurd hr (List.not_mem_nil r))⟩

/-! ### Retry behaviour (C5) -/

theorem find?_update_analysis :
    ∀ (db : List AnalysisResult) (tid st : String) (rj : Option String),
      (update_analysis db tid st rj).find? (fun r => r.task_id == tid)
        = (db.find? (fun r => r.task_id == tid)).map
            (fun r => applyUpd r st rj)
  | [], _, _, _ => rfl
  | r :: rest, tid, st, rj => by
    simp only [update_analysis]
    split
    · rename_i heq
      rw [List.find?_cons_of_pos _ (by simp [applyUpd, heq]),
        List.find?_cons_of_pos _ (by simp [heq])]
      rfl
    · rename_i hne
      rw [List.find?_cons_of_neg _ (by simp [hne]),
        List.find?_cons_of_neg _ (by simp [hne])]
      exact find?_update_analysis rest tid st rj

theorem run_job_attempts_le :
    ∀ (outcomes : List (Option CrewOutputs)) (tid : String) (rl : Nat)
      (db : List AnalysisResult),
      (run_job tid outcomes rl db).2.1 ≤ rl + 1
  | [], _, _, _ => by simp [run_job]
  | some _ :: _, _, _, _ => by simp [run_job]
  | none :: rest, tid, rl, db => by
    match rl with
    | 0 => simp [run_job]
    | n + 1 =>
      simp only [run_job]
      have := run_job_attempts_le rest tid n
        (update_analysis (update_analysis db tid "processing" none) tid
          "failed" none)
      omega

theorem run_job_delays :
    ∀ (outcomes : List (Option CrewOutputs)) (tid : String) (rl : Nat)
      (db : List AnalysisResult),
      ∀ d ∈ (run_job tid outcomes rl db).2.2, d = default_retry_delay
  | [], _, _, _ => by simp [run_job]
  | some _ :: _, _, _, _ => by simp [run_job]
  | none :: rest, tid, rl, db => by
    match rl with
    | 0 => simp [run_job]
    | n + 1 =>
      simp only [run_job, List.mem_cons]
      rintro d (rfl | hd)
      · rfl
      · exact run_job_delays rest tid n _ d hd

/-- C5: the retry ceiling is 2 and the backoff 60s (the decorator's values);
any run of the job executes at most 3 attempts; every scheduled retry delay
is 60s; a failing attempt leaves the matched row's status at `failed`; and
a run where every delivered attempt raises performs exactly 3 attempts,
each transitioning the row `processing` → `failed`, before giving up. -/
theorem retry_policy_spec :
    max_retries = 2 ∧ default_retry_delay = 60
    ∧ (∀ (tid : String) (outcomes : List (Option CrewOutputs))
        (db : List AnalysisResult),
        (run_job tid outcomes max_retries db).2.1 ≤ 3)
    ∧ (∀ (tid : String) (outcomes : List (Option CrewOutputs))
        (db : List AnalysisResult),
        ∀ d ∈ (run_job tid outcomes max_retries db).2.2, d = 60)
    ∧ (∀ (db : List AnalysisResult) (tid : String),
        ((update_analysis (update_analysis db tid "processing" none) tid
              "failed" none).find? (fun r => r.task_id == tid)).map
            (fun r => r.status)
          = (db.find? (fun r => r.task_id == tid)).map (fun _ => "failed"))
    ∧ (run_job "task-a" [none, none, none, none] max_retries [sampleRow]).2.1
        = 3
    ∧ (run_job "task-a" [none, none, none, none] max_retries
          [sampleRow]).1.map (fun db => db.map (fun r => r.status))
        = [["processing"], ["failed"], ["processing"], ["failed"],
           ["processing"], ["failed"]] := by
  refine ⟨rfl, rfl, fun tid outcomes db => run_job_attempts_le outcomes tid 2 db,
    fun tid outcomes db => run_job_delays outcomes tid 2 db, ?_, by decide, by decide⟩
  intro db tid
  rw [find?_update_analysis, find?_update_analysis, Option.map_map,
    Option.map_map]
  rfl

end BloodAnalyzer
